import Mathlib

/-!
Verification of the sql.js-httpvfs-playground specification.

The repository's own code (`src/App.svelte` and friends) is UI glue; the
specification additionally defines the chunked range-request file reader
with page-level caching that the application depends on (the capability of
the external `sql.js-httpvfs` library).  That component is not present in
the repository's sources, so it is modelled here directly from the
specification's component design (spec §§2–5, 7), while the UI-level
functions (`queryDb`, `runQuery`) are embedded from `src/App.svelte`.

Bytes are modelled as natural numbers, byte sequences as `List Nat`,
JavaScript numbers as `Option ℚ` (`none` standing for `NaN`).
-/

namespace Vfs

/-- Modelled from the spec: the error taxonomy of §7 for the range-request
virtual file reader (`NetworkError`, `RangeNotSupportedError`,
`OutOfRangeError`, `UnknownSizeError`), which is not part of the
repository's own sources. -/
inductive VfsError where
  | networkError
  | rangeNotSupportedError
  | outOfRangeError
  | unknownSizeError
deriving DecidableEq, Repr

/-- Modelled from the spec: how the remote HTTP server answers a ranged
GET (§4.1, §6) — it serves `206 Partial Content`, or answers `200` with
the full body (Range support stripped), or the transport fails. -/
inductive ServerMode where
  | partial206
  | full200
  | transportFail
deriving DecidableEq, Repr

/-- Modelled from the spec: the remote resource — an immutable byte string
together with the server's behaviour towards ranged requests (§4.1, §6). -/
structure Server where
  bytes : List Nat
  mode : ServerMode
deriving DecidableEq, Repr

/-- Modelled from the spec: the `Stats` cumulative counters
`totalRequests` and `totalBytes` (§3). -/
structure Stats where
  totalRequests : Nat
  totalBytes : Nat
deriving DecidableEq, Repr

/-- Modelled from the spec: `FileHandle` with `url`, `totalSize`
(`none` when the server reported no size and no override was supplied)
and `pageSize` (§3, §4.3 edge cases). -/
structure FileHandle where
  url : String
  totalSize : Option Nat
  pageSize : Nat
deriving DecidableEq, Repr

/-- The byte subsequence `[start, endInclusive]` of a byte string. -/
def sliceRange (bytes : List Nat) (start endInclusive : Nat) : List Nat :=
  (bytes.drop start).take (endInclusive + 1 - start)

/-- Modelled from the spec: `RangeFetcher.fetchRange` (§4.1).  A ranged
request against a `206`-serving server yields exactly the requested byte
subrange; a `200` answer is surfaced as `RangeNotSupportedError`, a
transport failure as `NetworkError`. -/
def fetchRange (srv : Server) (start endInclusive : Nat) :
    Except VfsError (List Nat) :=
  match srv.mode with
  | .transportFail => .error .networkError
  | .full200 => .error .rangeNotSupportedError
  | .partial206 => .ok (sliceRange srv.bytes start endInclusive)

/-- Modelled from the spec: the mutable per-session state — the
`PageCache` (pages keyed by page index; an association list, most recent
insertion first) together with the `Stats` counters (§3, §4.2). -/
structure VfsState where
  cache : List (Nat × List Nat)
  stats : Stats
deriving DecidableEq, Repr

/-- `PageCache.get`: first entry for the given page index, if any. -/
def cacheGet : List (Nat × List Nat) → Nat → Option (List Nat)
  | [], _ => none
  | (j, d) :: rest, i => if j = i then some d else cacheGet rest i

/-- `PageCache.put`: insert a page wholesale (spec §3 invariant: entries
are replaced wholesale or not at all; the unbounded default of §4.2). -/
def cachePut (c : List (Nat × List Nat)) (i : Nat) (d : List Nat) :
    List (Nat × List Nat) :=
  (i, d) :: c

/-- Modelled from the spec: the last byte (inclusive) of page `i`,
`min(totalSize, (index+1)*pageSize) - 1` (§4.3). -/
def pageEnd (totalSize pageSize i : Nat) : Nat :=
  min totalSize ((i + 1) * pageSize) - 1

/-- Modelled from the spec: obtain one page — check the `PageCache`, on a
miss fetch the page's absolute byte range, count the actual transferred
length in `Stats`, and insert the page (§4.3, §4.1 side effect). -/
def fetchPage (srv : Server) (totalSize pageSize i : Nat) (st : VfsState) :
    Except VfsError (List Nat × VfsState) :=
  match cacheGet st.cache i with
  | some d => .ok (d, st)
  | none =>
    match fetchRange srv (i * pageSize) (pageEnd totalSize pageSize i) with
    | .error e => .error e
    | .ok d =>
        .ok (d, ⟨cachePut st.cache i d,
          ⟨st.stats.totalRequests + 1, st.stats.totalBytes + d.length⟩⟩)

/-- Obtain every page of the given index list in order and concatenate
their bytes, threading the session state. -/
def readPages (srv : Server) (totalSize pageSize : Nat) :
    List Nat → VfsState → Except VfsError (List Nat × VfsState)
  | [], st => .ok ([], st)
  | i :: rest, st =>
    match fetchPage srv totalSize pageSize i st with
    | .error e => .error e
    | .ok (d, st1) =>
      match readPages srv totalSize pageSize rest st1 with
      | .error e => .error e
      | .ok (ds, st2) => .ok (d ++ ds, st2)

/-- Modelled from the spec: the inclusive page-index range
`floor(offset/pageSize) .. floor((offset+length-1)/pageSize)` of a
`ReadRequest` (§3); empty for a zero-length read. -/
def pageIndices (pageSize offset length : Nat) : List Nat :=
  if length = 0 then []
  else
    List.range' (offset / pageSize)
      ((offset + length - 1) / pageSize + 1 - offset / pageSize)

/-- Modelled from the spec: `VirtualFileReader.read` (§4.3).  Fails with
`UnknownSizeError` when `totalSize` is unknown, with `OutOfRangeError`
when `offset + length > totalSize`; otherwise resolves the page-index
range, obtains every page through the cache, concatenates them and slices
out exactly `[offset, offset+length)`. -/
def read (srv : Server) (h : FileHandle) (st : VfsState)
    (offset length : Nat) : Except VfsError (List Nat × VfsState) :=
  match h.totalSize with
  | none => .error .unknownSizeError
  | some totalSize =>
    if offset + length > totalSize then .error .outOfRangeError
    else
      match readPages srv totalSize h.pageSize
          (pageIndices h.pageSize offset length) st with
      | .error e => .error e
      | .ok (bs, st1) =>
          .ok ((bs.drop (offset % h.pageSize)).take length, st1)

/-- A session state is consistent with a resource when every cached page
holds exactly that page's bytes of the resource. -/
def CacheConsistent (srv : Server) (pageSize : Nat) (st : VfsState) : Prop :=
  ∀ i d, cacheGet st.cache i = some d →
    d = (srv.bytes.drop (i * pageSize)).take pageSize

/-- The concrete resource of the spec's §8 scenario: a 10,000-byte file
served with Range support. -/
def demoServer : Server := ⟨List.replicate 10000 7, .partial206⟩

/-- The §8 scenario handle: known size 10,000, page size 1024. -/
def demoHandle : FileHandle :=
  ⟨"https://example.com/db.sqlite3", some 10000, 1024⟩

/-- A fresh session: empty cache, zeroed counters. -/
def freshState : VfsState := ⟨[], ⟨0, 0⟩⟩

/-- The session state after the scenario's first call `read(0, 2048)`. -/
def afterFirstRead : VfsState :=
  match read demoServer demoHandle freshState 0 2048 with
  | .ok (_, st) => st
  | .error _ => freshState

/-- The `Stats` counters a read leaves behind, if it succeeds. -/
def statsOf : Except VfsError (List Nat × VfsState) → Option Stats
  | .ok (_, st) => some st.stats
  | .error _ => none


end Vfs


namespace Dedup

/-- Modelled from the spec: the concurrency-control state of §5 — the
pages already fetched and cached, the page indices with an in-flight
network fetch (the deduplication map's keys), and the log of network
fetches started so far (a multiset of page indices). -/
structure DedupState where
  cached : List Nat
  inflight : List Nat
  started : List Nat
deriving DecidableEq, Repr

/-- Modelled from the spec: one atomic event of the §5 concurrency model.
A reader that misses the cache and finds no in-flight fetch for the page
starts one (late arrivals attach to the pending handle instead, so no
event exists for them); a pending fetch completes, populating the cache
and clearing the deduplication entry. -/
inductive Step : DedupState → DedupState → Prop where
  | start (s : DedupState) (i : Nat)
      (hc : i ∉ s.cached) (hf : i ∉ s.inflight) :
      Step s ⟨s.cached, i :: s.inflight, i :: s.started⟩
  | complete (s : DedupState) (i : Nat) (hf : i ∈ s.inflight) :
      Step s ⟨i :: s.cached, s.inflight.erase i, s.started⟩

/-- States reachable from a fresh session by any interleaving of reader
arrivals and fetch completions. -/
inductive Reach : DedupState → Prop where
  | init : Reach ⟨[], [], []⟩
  | step {s t : DedupState} : Reach s → Step s t → Reach t

/-- The deduplication invariant: in-flight entries are unique, cached
pages are unique and never simultaneously in flight, and every page that
is cached or in flight has had exactly one network fetch started — every
other page none. -/
def Inv (s : DedupState) : Prop :=
  s.inflight.Nodup ∧ s.cached.Nodup ∧
    (∀ i, ¬ (i ∈ s.cached ∧ i ∈ s.inflight)) ∧
    (∀ i, s.started.count i =
      if i ∈ s.cached ∨ i ∈ s.inflight then 1 else 0)

end Dedup


namespace App

/-- Value of an all-digit run, most significant first. -/
def digitsToNat (cs : List Char) : Nat :=
  cs.foldl (fun acc c => acc * 10 + (c.toNat - 48)) 0

/-- Strip leading and trailing whitespace. -/
def trimWs (cs : List Char) : List Char :=
  ((cs.dropWhile Char.isWhitespace).reverse.dropWhile Char.isWhitespace).reverse

/-- Unsigned decimal literal: digits with an optional fractional part. -/
def parseUnsigned (cs : List Char) : Option ℚ :=
  match cs.span Char.isDigit with
  | (intPart, rest) =>
    match rest with
    | [] => if intPart.isEmpty then none else some (digitsToNat intPart)
    | '.' :: fracPart =>
        if fracPart.all Char.isDigit && !(intPart.isEmpty && fracPart.isEmpty)
        then
          some ((digitsToNat intPart : ℚ) +
            (digitsToNat fracPart : ℚ) / (10 : ℚ) ^ fracPart.length)
        else none
    | _ => none

/-- Model of the JavaScript `Number()` coercion applied by `queryDb` to
the form fields (decimal strings, as produced by this UI's numeric
inputs): surrounding whitespace is ignored, the empty string is `0`, an
optional sign precedes the digits, and any other text gives `NaN`
(`none`).  Exponent, hexadecimal and `Infinity` forms are out of scope
for these inputs. -/
def jsNumber (s : String) : Option ℚ :=
  match trimWs s.toList with
  | [] => some 0
  | '-' :: rest => (parseUnsigned rest).map (fun q => -q)
  | '+' :: rest => parseUnsigned rest
  | cs => parseUnsigned cs

/-- The user-editable form state read by `queryDb` in `src/App.svelte`:
database URL, selected chunk size, optional file-size override, and the
SQL editor text. -/
structure AppState where
  dbUrl : String
  pageSize : String
  dbFileSize : String
  sqlQuery : String
deriving DecidableEq, Repr

/-- The worker configuration object `queryDb` builds (`src/App.svelte`
lines 371–381): `serverMode`, `url`, `requestChunkSize`, and the
conditionally added `fileSize` key (`none` = key absent). -/
structure WorkerConfig where
  serverMode : String
  url : String
  requestChunkSize : Option ℚ
  fileSize : Option ℚ
deriving DecidableEq, Repr

/-- `queryDb`'s config construction: the base config carries
`serverMode: "full"`, `url: dbUrl` and
`requestChunkSize: Number(pageSize)`; then
`const fileSizeNum = Number(dbFileSize); if (fileSizeNum > 0)
config.fileSize = fileSizeNum` (a `NaN` comparison is false, so no key is
added). -/
def queryDbConfig (s : AppState) : WorkerConfig :=
  let base : WorkerConfig := ⟨"full", s.dbUrl, jsNumber s.pageSize, none⟩
  match jsNumber s.dbFileSize with
  | some q => if 0 < q then { base with fileSize := some q } else base
  | none => base

/-- The SQL string `queryDb` passes to `worker.db.query`. -/
def queryDbQueryString (s : AppState) : String := s.sqlQuery

/-- How one `queryDb` invocation settles, as observed by `runQuery`: the
worker resolves with result rows, bytes read, the two stats counters and
the elapsed time, or rejects with an error whose `message` property may
be absent. -/
inductive QueryOutcome where
  | success (rows : List (List (String × String))) (bytesRead : ℚ)
      (totalRequests : ℚ) (totalBytes : ℚ) (time : ℚ)
  | failure (message : Option String)
deriving DecidableEq, Repr

/-- The component state `runQuery` manipulates (`src/App.svelte` lines
287–312).  Rows are modelled as association lists of column name to cell
text; the JSON download blob is identified with the rows it was
serialised from; `none` models `null`. -/
structure UiState where
  result : Option (List (List (String × String)))
  timeTaken : Option ℚ
  bytesRead : Option ℚ
  querying : Bool
  error : Bool
  errorMessage : String
  jsonFile : Option (List (List (String × String)))
  totalBytes : Option ℚ
  totalRequests : Option ℚ
deriving DecidableEq, Repr

/-- `runQuery` (`src/App.svelte` lines 407–439): reset `result` to null,
set `querying`, clear the error flag and message, await the query; on
success publish the results, stats and the JSON blob; on rejection set
the error flag, record `err.message || "An unknown error occurred"` and
null the blob; `finally` clears `querying` in both cases. -/
def runQuery (u : UiState) (out : QueryOutcome) : UiState :=
  let u0 : UiState :=
    { u with result := none, querying := true,
             error := false, errorMessage := "" }
  match out with
  | .success rows bytes reqs tot t =>
      { u0 with result := some rows, timeTaken := some t,
                bytesRead := some bytes, totalRequests := some reqs,
                totalBytes := some tot, jsonFile := some rows,
                querying := false }
  | .failure m =>
      { u0 with error := true,
                errorMessage :=
                  match m with
                  | some msg =>
                      if msg = "" then "An unknown error occurred" else msg
                  | none => "An unknown error occurred",
                jsonFile := none,
                querying := false }

/-- The form state the application starts with (`src/App.svelte` default
constants: the bundled IMDb sample database and its 10,261,504-byte
size). -/
def defaultAppState : AppState :=
  ⟨"https://nishad.github.io/sql.js-httpvfs-playground/db/imdb-titles-100000_1024_indexed.sqlite3",
   "1024", "10261504", "SELECT * FROM titles WHERE title_id LIKE \"tt00000%\";"⟩

/-- A quiescent UI state before any query. -/
def idleUi : UiState :=
  ⟨none, none, none, false, false, "", none, none, none⟩

end App

deriving instance DecidableEq for Except

/-- A small concrete resource (10 bytes) behind a Range-supporting
server, for exercising the reader on explicit inputs. -/
def wServer : Vfs.Server :=
  ⟨[10, 11, 12, 13, 14, 15, 16, 17, 18, 19], .partial206⟩

/-- A handle on `wServer` with page size 4. -/
def wHandle : Vfs.FileHandle := ⟨"https://example.com/w.sqlite3", some 10, 4⟩

/-- A handle whose size probe failed and that got no explicit override. -/
def wNoSizeHandle : Vfs.FileHandle :=
  ⟨"https://example.com/w.sqlite3", none, 4⟩

/-- A server that ignores `Range` headers and answers `200` with the full
body. -/
def w200Server : Vfs.Server := ⟨[1, 2, 3, 4], .full200⟩

/-- The session state `read wServer wHandle ⟨[], ⟨0, 0⟩⟩ 0 6` leaves
behind. -/
def wAfter : Vfs.VfsState :=
  match Vfs.read wServer wHandle ⟨[], ⟨0, 0⟩⟩ 0 6 with
  | .ok (_, st) => st
  | .error _ => ⟨[], ⟨0, 0⟩⟩

namespace Vfs

/-- The absolute byte range of page `i` (clipped to the resource size)
carves out exactly the `i`-th `pageSize`-block of the resource. -/
theorem pageSlice_eq (bytes : List Nat) (ps i : Nat) (hps : 0 < ps) :
    sliceRange bytes (i * ps) (pageEnd bytes.length ps i) =
      (bytes.drop (i * ps)).take ps := by
  unfold sliceRange pageEnd
  rw [List.take_eq_take]
  have h1 : (i + 1) * ps = i * ps + ps := by ring
  rw [List.length_drop]
  omega

/-- A cache hit serves the cached page and leaves the state untouched. -/
theorem fetchPage_hit {srv : Server} {L ps i : Nat} {st : VfsState}
    {d : List Nat} (hc : cacheGet st.cache i = some d) :
    fetchPage srv L ps i st = .ok (d, st) := by
  simp only [fetchPage, hc]

/-- A cache miss over a `206`-serving server fetches the page's absolute
byte range, counts one request and the transferred length, and caches the
page. -/
theorem fetchPage_miss {srv : Server} {L ps i : Nat} {st : VfsState}
    (hc : cacheGet st.cache i = none) (hmode : srv.mode = .partial206) :
    fetchPage srv L ps i st =
      .ok (sliceRange srv.bytes (i * ps) (pageEnd L ps i),
        ⟨cachePut st.cache i (sliceRange srv.bytes (i * ps) (pageEnd L ps i)),
         ⟨st.stats.totalRequests + 1,
          st.stats.totalBytes +
            (sliceRange srv.bytes (i * ps) (pageEnd L ps i)).length⟩⟩) := by
  simp only [fetchPage, hc, fetchRange, hmode]

/-- Obtaining a page from a consistent state over a `206`-serving server
returns exactly that page's bytes of the resource and preserves
consistency. -/
theorem fetchPage_correct (srv : Server) (ps i : Nat) (st : VfsState)
    (hps : 0 < ps) (hmode : srv.mode = .partial206)
    (hcons : CacheConsistent srv ps st) :
    ∃ st', fetchPage srv srv.bytes.length ps i st =
        .ok ((srv.bytes.drop (i * ps)).take ps, st') ∧
      CacheConsistent srv ps st' := by
  cases hc : cacheGet st.cache i with
  | some d =>
      refine ⟨st, ?_, hcons⟩
      rw [fetchPage_hit hc, hcons i d hc]
  | none =>
      have hd := pageSlice_eq srv.bytes ps i hps
      refine ⟨⟨cachePut st.cache i ((srv.bytes.drop (i * ps)).take ps),
        ⟨st.stats.totalRequests + 1,
         st.stats.totalBytes + ((srv.bytes.drop (i * ps)).take ps).length⟩⟩,
        ?_, ?_⟩
      · rw [fetchPage_miss hc hmode, hd]
      · intro j e hj
        simp only [cachePut, cacheGet] at hj
        by_cases hij : i = j
        · subst hij
          rw [if_pos rfl] at hj
          injection hj with hj
          exact hj.symm
        · rw [if_neg hij] at hj
          exact hcons j e hj

/-- Reading the consecutive pages `a .. a+n-1` from a consistent state
concatenates to the corresponding contiguous block of the resource, and
preserves consistency. -/
theorem readPages_range' (srv : Server) (ps : Nat) (hps : 0 < ps)
    (hmode : srv.mode = .partial206) :
    ∀ (n a : Nat) (st : VfsState), CacheConsistent srv ps st →
      ∃ st', readPages srv srv.bytes.length ps (List.range' a n) st =
          .ok ((srv.bytes.drop (a * ps)).take (n * ps), st') ∧
        CacheConsistent srv ps st'
  | 0, a, st, hcons => ⟨st, by simp [readPages], hcons⟩
  | n + 1, a, st, hcons => by
      obtain ⟨st1, hf, hcons1⟩ := fetchPage_correct srv ps a st hps hmode hcons
      obtain ⟨st2, hr, hcons2⟩ := readPages_range' srv ps hps hmode n (a + 1) st1 hcons1
      refine ⟨st2, ?_, hcons2⟩
      rw [List.range'_succ]
      simp only [readPages, hf, hr]
      have h1 : (a + 1) * ps = a * ps + ps := by ring
      have h2 : (n + 1) * ps = ps + n * ps := by ring
      rw [h2, List.take_add, List.drop_drop, h1]

/-- On a successful in-bounds read the returned bytes are exactly
`[offset, offset+length)` of the resource, and the session state stays
consistent. -/
theorem read_ok (srv : Server) (h : FileHandle) (st : VfsState)
    (offset length : Nat) (hps : 0 < h.pageSize)
    (hmode : srv.mode = .partial206)
    (hsize : h.totalSize = some srv.bytes.length)
    (hcons : CacheConsistent srv h.pageSize st)
    (hrange : offset + length ≤ srv.bytes.length) :
    ∃ st', read srv h st offset length =
        .ok ((srv.bytes.drop offset).take length, st') ∧
      CacheConsistent srv h.pageSize st' := by
  set ps := h.pageSize with hpsdef
  simp only [read, hsize]
  rw [if_neg (show ¬ offset + length > srv.bytes.length from by omega)]
  by_cases hl : length = 0
  · subst hl
    refine ⟨st, ?_, hcons⟩
    simp [pageIndices, readPages]
  · set first := offset / ps with hfirst
    set last := (offset + length - 1) / ps with hlast
    have hfle : first ≤ last := by
      rw [hfirst, hlast]
      exact Nat.div_le_div_right (by omega)
    set n := last + 1 - first with hn
    obtain ⟨st', hr, hcons'⟩ := readPages_range' srv ps hps hmode n first st hcons
    rw [pageIndices, if_neg hl, ← hfirst, ← hlast, ← hn]
    simp only [hr]
    refine ⟨st', ?_, hcons'⟩
    -- arithmetic facts about the page-index range
    have hfl : first * ps ≤ offset := by
      rw [hfirst]; exact Nat.div_mul_le_self offset ps
    have hmod : offset % ps = offset - first * ps := by
      have h1 := Nat.div_add_mod offset ps
      have h2 : ps * (offset / ps) = first * ps := by
        rw [hfirst, Nat.mul_comm]
      omega
    have hub : offset + length ≤ (last + 1) * ps := by
      have h1 : offset + length - 1 < (last + 1) * ps :=
        (Nat.div_lt_iff_lt_mul hps).mp
          (by rw [← hlast]; exact Nat.lt_succ_self last)
      omega
    have hfn : first + n = last + 1 := by omega
    have hmin : min length (n * ps - (offset - first * ps)) = length := by
      have hmul : first * ps + n * ps = (last + 1) * ps := by
        rw [← Nat.add_mul, hfn]
      omega
    rw [hmod, List.drop_take, List.drop_drop,
      show first * ps + (offset - first * ps) = offset from by omega,
      List.take_take, hmin]

/-- A cache miss whose network fetch succeeds caches the fetched page and
counts one request and the transferred length. -/
theorem fetchPage_miss_ok {srv : Server} {L ps i : Nat} {st : VfsState}
    {d0 : List Nat} (hc : cacheGet st.cache i = none)
    (hf : fetchRange srv (i * ps) (pageEnd L ps i) = .ok d0) :
    fetchPage srv L ps i st =
      .ok (d0, ⟨cachePut st.cache i d0,
        ⟨st.stats.totalRequests + 1, st.stats.totalBytes + d0.length⟩⟩) := by
  simp only [fetchPage, hc, hf]

/-- A cache miss whose network fetch fails propagates the error. -/
theorem fetchPage_miss_err {srv : Server} {L ps i : Nat} {st : VfsState}
    {e : VfsError} (hc : cacheGet st.cache i = none)
    (hf : fetchRange srv (i * ps) (pageEnd L ps i) = .error e) :
    fetchPage srv L ps i st = .error e := by
  simp only [fetchPage, hc, hf]

/-- Obtaining a page never evicts: every previously cached page is still
cached afterwards, with the same bytes. -/
theorem fetchPage_mono {srv : Server} {L ps i : Nat} {st : VfsState}
    {d : List Nat} {st1 : VfsState}
    (h : fetchPage srv L ps i st = .ok (d, st1)) :
    ∀ j e, cacheGet st.cache j = some e → cacheGet st1.cache j = some e := by
  intro j e hj
  cases hc : cacheGet st.cache i with
  | some d0 =>
      rw [fetchPage_hit hc] at h
      injection h with h'
      injection h' with _ hst
      rw [← hst]
      exact hj
  | none =>
      cases hf : fetchRange srv (i * ps) (pageEnd L ps i) with
      | error e0 => rw [fetchPage_miss_err hc hf] at h; exact absurd h (by simp)
      | ok d0 =>
          rw [fetchPage_miss_ok hc hf] at h
          injection h with h'
          injection h' with _ hst
          rw [← hst]
          have hij : ¬ i = j := fun hij => by
            rw [hij] at hc; rw [hc] at hj; exact Option.noConfusion hj
          simp only [cachePut, cacheGet, if_neg hij]
          exact hj

/-- After obtaining page `i` the cache holds page `i` with exactly the
bytes that were returned. -/
theorem fetchPage_caches {srv : Server} {L ps i : Nat} {st : VfsState}
    {d : List Nat} {st1 : VfsState}
    (h : fetchPage srv L ps i st = .ok (d, st1)) :
    cacheGet st1.cache i = some d := by
  cases hc : cacheGet st.cache i with
  | some d0 =>
      rw [fetchPage_hit hc] at h
      injection h with h'
      injection h' with hd hst
      rw [← hst, hc, hd]
  | none =>
      cases hf : fetchRange srv (i * ps) (pageEnd L ps i) with
      | error e0 => rw [fetchPage_miss_err hc hf] at h; exact absurd h (by simp)
      | ok d0 =>
          rw [fetchPage_miss_ok hc hf] at h
          injection h with h'
          injection h' with hd hst
          rw [← hst]
          simp [cachePut, cacheGet, hd]

/-- A successful multi-page read leaves every previously cached page in
place, and replaying the same page list on the resulting state is a pure
cache hit: it returns the same bytes and the state (stats included)
unchanged. -/
theorem readPages_stable (srv : Server) (L ps : Nat) :
    ∀ (idxs : List Nat) (st : VfsState) (bs : List Nat) (st' : VfsState),
      readPages srv L ps idxs st = .ok (bs, st') →
      (∀ j e, cacheGet st.cache j = some e → cacheGet st'.cache j = some e) ∧
      readPages srv L ps idxs st' = .ok (bs, st')
  | [], st, bs, st', h => by
      simp only [readPages, Except.ok.injEq, Prod.mk.injEq] at h
      obtain ⟨hb, hst⟩ := h
      subst hst
      refine ⟨fun j e hj => hj, ?_⟩
      rw [readPages, hb]
  | i :: rest, st, bs, stF, h => by
      simp only [readPages] at h
      cases hf : fetchPage srv L ps i st with
      | error e0 => simp only [hf] at h; exact absurd h (by simp)
      | ok p =>
          obtain ⟨d, st1⟩ := p
          simp only [hf] at h
          cases hrp : readPages srv L ps rest st1 with
          | error e0 => simp only [hrp] at h; exact absurd h (by simp)
          | ok q =>
              obtain ⟨ds, st2⟩ := q
              simp only [hrp, Except.ok.injEq, Prod.mk.injEq] at h
              obtain ⟨hb, hst⟩ := h
              subst hst
              obtain ⟨hmono, hstable⟩ :=
                readPages_stable srv L ps rest st1 ds st2 hrp
              refine ⟨fun j e hj => hmono j e (fetchPage_mono hf j e hj), ?_⟩
              have hcached : cacheGet st2.cache i = some d :=
                hmono i d (fetchPage_caches hf)
              simp only [readPages, fetchPage_hit hcached, hstable, hb]

/-- A read against a handle with unknown size fails immediately. -/
theorem read_unknown_size {srv : Server} {h : FileHandle} {st : VfsState}
    {offset length : Nat} (hts : h.totalSize = none) :
    read srv h st offset length = .error .unknownSizeError := by
  rw [read, hts]

/-- A read past the known size fails immediately. -/
theorem read_out_of_range {srv : Server} {h : FileHandle} {st : VfsState}
    {offset length L : Nat} (hts : h.totalSize = some L)
    (hgt : offset + length > L) :
    read srv h st offset length = .error .outOfRangeError := by
  rw [read, hts]
  exact if_pos hgt

/-- An in-bounds read reduces to the multi-page fetch plus final slice. -/
theorem read_in_range {srv : Server} {h : FileHandle} {st : VfsState}
    {offset length L : Nat} (hts : h.totalSize = some L)
    (hle : ¬ offset + length > L) :
    read srv h st offset length =
      match readPages srv L h.pageSize
          (pageIndices h.pageSize offset length) st with
      | .error e => .error e
      | .ok (bs, st1) =>
          .ok ((bs.drop (offset % h.pageSize)).take length, st1) := by
  rw [read, hts]
  exact if_neg hle

/-- Repeating a successful `read` verbatim is a pure cache hit: it
returns the same bytes and leaves the whole session state — the cache and
both `Stats` counters — exactly as the first call left them. -/
theorem read_repeat_pure_hit (srv : Server) (h : FileHandle)
    (st st1 : VfsState) (b : List Nat) (offset length : Nat)
    (hr : read srv h st offset length = .ok (b, st1)) :
    read srv h st1 offset length = .ok (b, st1) := by
  cases hts : h.totalSize with
  | none => rw [read_unknown_size hts] at hr; exact absurd hr (by simp)
  | some L =>
      by_cases hgt : offset + length > L
      · rw [read_out_of_range hts hgt] at hr; exact absurd hr (by simp)
      · rw [read_in_range hts hgt] at hr ⊢
        cases hrp : readPages srv L h.pageSize
            (pageIndices h.pageSize offset length) st with
        | error e0 => simp only [hrp] at hr; exact absurd hr (by simp)
        | ok p =>
            obtain ⟨bs, st2⟩ := p
            simp only [hrp, Except.ok.injEq, Prod.mk.injEq] at hr
            obtain ⟨hb, hst⟩ := hr
            subst hst
            have hstable :=
              (readPages_stable srv L h.pageSize _ st bs st2 hrp).2
            simp only [hstable, hb]

/-- Inserting page `i` does not disturb the lookup of any other index. -/
theorem cacheGet_cachePut_ne {c : List (Nat × List Nat)} {i j : Nat}
    {d : List Nat} (hij : ¬ i = j) :
    cacheGet (cachePut c i d) j = cacheGet c j := by
  simp only [cachePut, cacheGet, if_neg hij]

/-- Over a duplicate-free page list, a successful multi-page read
increments `totalRequests` exactly once per page that missed the cache at
call time — cache hits contribute nothing. -/
theorem readPages_requests (srv : Server) (L ps : Nat) :
    ∀ (idxs : List Nat) (st : VfsState) (bs : List Nat) (st' : VfsState),
      idxs.Nodup →
      readPages srv L ps idxs st = .ok (bs, st') →
      st'.stats.totalRequests = st.stats.totalRequests +
        (idxs.filter (fun i => (cacheGet st.cache i).isNone)).length
  | [], st, bs, st', _, h => by
      simp only [readPages, Except.ok.injEq, Prod.mk.injEq] at h
      rw [← h.2]
      simp
  | i :: rest, st, bs, st', hnd, h => by
      rw [List.nodup_cons] at hnd
      simp only [readPages] at h
      rw [List.filter_cons]
      cases hc : cacheGet st.cache i with
      | some d =>
          simp only [fetchPage_hit hc] at h
          cases hrp : readPages srv L ps rest st with
          | error e0 => simp only [hrp] at h; exact absurd h (by simp)
          | ok q =>
              obtain ⟨ds, st2⟩ := q
              simp only [hrp, Except.ok.injEq, Prod.mk.injEq] at h
              rw [← h.2]
              rw [readPages_requests srv L ps rest st ds st2 hnd.2 hrp]
              simp [hc]
      | none =>
          cases hf : fetchRange srv (i * ps) (pageEnd L ps i) with
          | error e0 =>
              rw [fetchPage_miss_err hc hf] at h
              exact absurd h (by simp)
          | ok d0 =>
              rw [fetchPage_miss_ok hc hf] at h
              cases hrp : readPages srv L ps rest
                  ⟨cachePut st.cache i d0,
                   ⟨st.stats.totalRequests + 1,
                    st.stats.totalBytes + d0.length⟩⟩ with
              | error e0 => simp only [hrp] at h; exact absurd h (by simp)
              | ok q =>
                  obtain ⟨ds, st2⟩ := q
                  simp only [hrp, Except.ok.injEq, Prod.mk.injEq] at h
                  rw [← h.2]
                  rw [readPages_requests srv L ps rest _ ds st2 hnd.2 hrp]
                  have hfilter :
                      rest.filter
                          (fun j =>
                            (cacheGet (cachePut st.cache i d0) j).isNone) =
                        rest.filter (fun j => (cacheGet st.cache j).isNone) :=
                    List.filter_congr (fun x hx => by
                      rw [cacheGet_cachePut_ne
                        (fun hix => hnd.1 (by rw [hix]; exact hx))])
                  simp only [hfilter, hc, Option.isNone_none, if_true,
                    List.length_cons]
                  omega

/-- The page-index range of a read request never repeats an index. -/
theorem pageIndices_nodup (ps offset length : Nat) :
    (pageIndices ps offset length).Nodup := by
  rw [pageIndices]
  split
  · exact List.nodup_nil
  · exact List.nodup_range' _ _

/-- A successful `read` increments `totalRequests` exactly once per page
of its page-index range that missed the cache at call time. -/
theorem read_requests (srv : Server) (h : FileHandle) (st : VfsState)
    (offset length : Nat) (b : List Nat) (st' : VfsState)
    (hr : read srv h st offset length = .ok (b, st')) :
    st'.stats.totalRequests = st.stats.totalRequests +
      ((pageIndices h.pageSize offset length).filter
        (fun i => (cacheGet st.cache i).isNone)).length := by
  cases hts : h.totalSize with
  | none => rw [read_unknown_size hts] at hr; exact absurd hr (by simp)
  | some L =>
      by_cases hgt : offset + length > L
      · rw [read_out_of_range hts hgt] at hr; exact absurd hr (by simp)
      · rw [read_in_range hts hgt] at hr
        cases hrp : readPages srv L h.pageSize
            (pageIndices h.pageSize offset length) st with
        | error e0 => simp only [hrp] at hr; exact absurd hr (by simp)
        | ok p =>
            obtain ⟨bs, st2⟩ := p
            simp only [hrp, Except.ok.injEq, Prod.mk.injEq] at hr
            rw [← hr.2]
            exact readPages_requests srv L h.pageSize _ st bs st2
              (pageIndices_nodup _ _ _) hrp

end Vfs

namespace Dedup

theorem Inv.init : Inv ⟨[], [], []⟩ := by
  refine ⟨List.nodup_nil, List.nodup_nil, ?_, ?_⟩ <;> simp

theorem Inv.step {s t : DedupState} (hs : Inv s) (hstep : Step s t) :
    Inv t := by
  obtain ⟨hnf, hnc, hdisj, hcount⟩ := hs
  cases hstep with
  | start i hc hf =>
      refine ⟨List.nodup_cons.mpr ⟨hf, hnf⟩, hnc, ?_, ?_⟩
      · intro j hj
        rcases List.mem_cons.mp hj.2 with hji | hji
        · exact hc (hji ▸ hj.1)
        · exact hdisj j ⟨hj.1, hji⟩
      · intro j
        rw [List.count_cons]
        by_cases hij : j = i
        · subst hij
          have h0 := hcount j
          rw [if_neg (by tauto)] at h0
          simp [h0]
        · have h0 := hcount j
          have hne : ¬ i = j := fun hg => hij hg.symm
          simp only [List.mem_cons, beq_iff_eq, if_neg hne, add_zero, h0]
          refine if_congr ?_ rfl rfl
          tauto
  | complete i hf =>
      have hinc : i ∉ s.cached := fun hic => hdisj i ⟨hic, hf⟩
      refine ⟨hnf.erase i, List.nodup_cons.mpr ⟨hinc, hnc⟩, ?_, ?_⟩
      · intro j hj
        rcases List.mem_cons.mp hj.1 with hji | hji
        · subst hji
          exact hnf.not_mem_erase hj.2
        · have hji2 : j ≠ i := fun hg => by
            subst hg; exact hdisj j ⟨hji, hf⟩
          exact hdisj j ⟨hji, (List.mem_erase_of_ne hji2).mp hj.2⟩
      · intro j
        have h0 := hcount j
        by_cases hij : j = i
        · subst hij
          rw [if_pos (Or.inr hf)] at h0
          rw [if_pos (Or.inl (List.mem_cons_self _ _))]
          exact h0
        · simp only [List.mem_cons]
          rw [h0]
          refine if_congr ?_ rfl rfl
          rw [List.mem_erase_of_ne hij]
          tauto

/-- Every reachable deduplication state satisfies the invariant. -/
theorem reach_inv {s : DedupState} (h : Reach s) : Inv s := by
  induction h with
  | init => exact Inv.init
  | step _ hstep ih => exact ih.step hstep

end Dedup


/-- C1: over an immutable resource served with Range support, every
in-bounds `read(offset, length)` from a consistent session returns
exactly bytes `[offset, offset+length)` of the reference resource and
leaves the session consistent; hence two reads with the same offset and
length always yield identical bytes, and non-overlapping adjacent reads
concatenate to the direct read of the combined range. -/
theorem c1_read_round_trip (srv : Vfs.Server) (h : Vfs.FileHandle)
    (hps : 0 < h.pageSize) (hmode : srv.mode = Vfs.ServerMode.partial206)
    (hsize : h.totalSize = some srv.bytes.length) :
    (∀ st offset length, Vfs.CacheConsistent srv h.pageSize st →
      offset + length ≤ srv.bytes.length →
      ∃ st', Vfs.read srv h st offset length =
          .ok ((srv.bytes.drop offset).take length, st') ∧
        Vfs.CacheConsistent srv h.pageSize st') ∧
    (∀ st1 st2 offset length b1 b2 r1 r2,
      Vfs.CacheConsistent srv h.pageSize st1 →
      Vfs.CacheConsistent srv h.pageSize st2 →
      offset + length ≤ srv.bytes.length →
      Vfs.read srv h st1 offset length = .ok (b1, r1) →
      Vfs.read srv h st2 offset length = .ok (b2, r2) →
      b1 = b2) ∧
    (∀ st1 st2 offset l1 l2 b1 b2 r1 r2,
      Vfs.CacheConsistent srv h.pageSize st1 →
      Vfs.CacheConsistent srv h.pageSize st2 →
      offset + l1 + l2 ≤ srv.bytes.length →
      Vfs.read srv h st1 offset l1 = .ok (b1, r1) →
      Vfs.read srv h st2 (offset + l1) l2 = .ok (b2, r2) →
      b1 ++ b2 = (srv.bytes.drop offset).take (l1 + l2)) := by
  have main : ∀ st offset length, Vfs.CacheConsistent srv h.pageSize st →
      offset + length ≤ srv.bytes.length →
      ∃ st', Vfs.read srv h st offset length =
          .ok ((srv.bytes.drop offset).take length, st') ∧
        Vfs.CacheConsistent srv h.pageSize st' :=
    fun st offset length hcons hrange =>
      Vfs.read_ok srv h st offset length hps hmode hsize hcons hrange
  refine ⟨main, ?_, ?_⟩
  · intro st1 st2 offset length b1 b2 r1 r2 hc1 hc2 hr hr1 hr2
    obtain ⟨s1, he1, _⟩ := main st1 offset length hc1 hr
    obtain ⟨s2, he2, _⟩ := main st2 offset length hc2 hr
    rw [hr1] at he1
    rw [hr2] at he2
    injection he1 with he1'
    injection he2 with he2'
    injection he1' with hb1 hs1
    injection he2' with hb2 hs2
    rw [hb1, hb2]
  · intro st1 st2 offset l1 l2 b1 b2 r1 r2 hc1 hc2 hr hr1 hr2
    obtain ⟨s1, he1, _⟩ := main st1 offset l1 hc1 (by omega)
    obtain ⟨s2, he2, _⟩ := main st2 (offset + l1) l2 hc2 (by omega)
    rw [hr1] at he1
    rw [hr2] at he2
    injection he1 with he1'
    injection he2 with he2'
    injection he1' with hb1 hs1
    injection he2' with hb2 hs2
    rw [hb1, hb2, List.take_add]
    congr 1
    congr 1
    rw [List.drop_drop]

/-- C1 witness: on the concrete 10-byte resource, `read(1, 3)` from a
fresh session returns bytes 1–3 and keeps the session consistent. -/
theorem c1_read_round_trip_witness :
    ∃ st', Vfs.read wServer wHandle ⟨[], ⟨0, 0⟩⟩ 1 3 =
        .ok ([11, 12, 13], st') ∧
      Vfs.CacheConsistent wServer wHandle.pageSize st' := by
  obtain ⟨st', hread, hcons⟩ :=
    (c1_read_round_trip wServer wHandle (by decide) rfl rfl).1
      ⟨[], ⟨0, 0⟩⟩ 1 3
      (fun i d hd => by simp [Vfs.cacheGet] at hd)
      (by decide)
  exact ⟨st', by rw [hread]; rfl, hcons⟩

/-- C2: a `read` whose `offset + length` exceeds the known `totalSize`
fails with `OutOfRangeError` and never returns any byte sequence — in
particular never a short or zero-filled one. -/
theorem c2_out_of_range_read_fails (srv : Vfs.Server) (h : Vfs.FileHandle)
    (st : Vfs.VfsState) (offset length n : Nat)
    (hts : h.totalSize = some n) (hgt : n < offset + length) :
    Vfs.read srv h st offset length = .error .outOfRangeError ∧
    ∀ b st', Vfs.read srv h st offset length ≠ .ok (b, st') := by
  have h1 : Vfs.read srv h st offset length = .error .outOfRangeError :=
    Vfs.read_out_of_range hts (by omega)
  exact ⟨h1, fun b st' hok => by
    rw [h1] at hok
    exact Except.noConfusion hok⟩

/-- C2 witness: reading 8 bytes at offset 5 of the 10-byte resource is
rejected with `OutOfRangeError`. -/
theorem c2_out_of_range_read_fails_witness :
    Vfs.read wServer wHandle ⟨[], ⟨0, 0⟩⟩ 5 8 =
      .error .outOfRangeError :=
  (c2_out_of_range_read_fails wServer wHandle ⟨[], ⟨0, 0⟩⟩ 5 8 10
    rfl (by decide)).1

/-- C4: repeating an identical successful `read(offset, length)` returns
the same bytes and leaves the session state unchanged, so `totalBytes`
and `totalRequests` keep exactly the values the first call gave them —
the repeat is a pure cache hit that crosses the network zero times. -/
theorem c4_repeat_read_pure_cache_hit (srv : Vfs.Server)
    (h : Vfs.FileHandle) (st st1 : Vfs.VfsState) (b : List Nat)
    (offset length : Nat)
    (hr : Vfs.read srv h st offset length = .ok (b, st1)) :
    Vfs.read srv h st1 offset length = .ok (b, st1) ∧
    ∀ b2 st2, Vfs.read srv h st1 offset length = .ok (b2, st2) →
      st2.stats.totalRequests = st1.stats.totalRequests ∧
      st2.stats.totalBytes = st1.stats.totalBytes ∧ b2 = b := by
  have h1 := Vfs.read_repeat_pure_hit srv h st st1 b offset length hr
  refine ⟨h1, fun b2 st2 h2 => ?_⟩
  rw [h1] at h2
  injection h2 with h3
  injection h3 with hb hst
  exact ⟨by rw [← hst], by rw [← hst], hb.symm⟩

/-- C4 witness: after `read(0, 6)` on the concrete resource, repeating
`read(0, 6)` returns the same bytes and the identical session state. -/
theorem c4_repeat_read_pure_cache_hit_witness :
    Vfs.read wServer wHandle wAfter 0 6 =
      .ok ([10, 11, 12, 13, 14, 15], wAfter) :=
  (c4_repeat_read_pure_cache_hit wServer wHandle ⟨[], ⟨0, 0⟩⟩ wAfter
    [10, 11, 12, 13, 14, 15] 0 6 (by decide)).1

/-- C6: a ranged request answered with full-content status (HTTP 200)
fails with `RangeNotSupportedError` — an error distinct from
`NetworkError` — and `fetchRange` never hands back the response body as
data. -/
theorem c6_http200_range_not_supported (srv : Vfs.Server)
    (start endIncl : Nat) (hmode : srv.mode = Vfs.ServerMode.full200) :
    Vfs.fetchRange srv start endIncl = .error .rangeNotSupportedError ∧
    Vfs.VfsError.rangeNotSupportedError ≠ Vfs.VfsError.networkError ∧
    ∀ d, Vfs.fetchRange srv start endIncl ≠ .ok d := by
  have h1 : Vfs.fetchRange srv start endIncl =
      .error .rangeNotSupportedError := by
    rw [Vfs.fetchRange, hmode]
  refine ⟨h1, by decide, fun d hok => ?_⟩
  rw [h1] at hok
  exact Except.noConfusion hok

/-- C6 witness: the concrete 200-answering server is reported as not
supporting ranges. -/
theorem c6_http200_range_not_supported_witness :
    Vfs.fetchRange w200Server 0 3 = .error .rangeNotSupportedError :=
  (c6_http200_range_not_supported w200Server 0 3 rfl).1

/-- C7: on a handle whose total size is unknown (no server-reported size
and no explicit override), every `read` fails with `UnknownSizeError`
and never proceeds with a guessed size. -/
theorem c7_unknown_size_read_fails (srv : Vfs.Server)
    (h : Vfs.FileHandle) (st : Vfs.VfsState) (offset length : Nat)
    (hts : h.totalSize = none) :
    Vfs.read srv h st offset length = .error .unknownSizeError ∧
    ∀ b st', Vfs.read srv h st offset length ≠ .ok (b, st') := by
  have h1 : Vfs.read srv h st offset length = .error .unknownSizeError :=
    Vfs.read_unknown_size hts
  exact ⟨h1, fun b st' hok => by
    rw [h1] at hok
    exact Except.noConfusion hok⟩

/-- C7 witness: any read on the size-less handle fails with
`UnknownSizeError`. -/
theorem c7_unknown_size_read_fails_witness :
    Vfs.read wServer wNoSizeHandle ⟨[], ⟨0, 0⟩⟩ 0 1 =
      .error .unknownSizeError :=
  (c7_unknown_size_read_fails wServer wNoSizeHandle ⟨[], ⟨0, 0⟩⟩ 0 1
    rfl).1

set_option maxRecDepth 100000

/-- C5: a successful `read` adds to `totalRequests` exactly one request
per page of its inclusive page-index range
`floor(offset/pageSize) .. floor((offset+length-1)/pageSize)` that
missed the cache at call time; on the spec's §8 scenario (10,000-byte
resource, page size 1024) a fresh-cache `read(0, 2048)` resolves to
exactly pages 0 and 1, returns the 2048 requested bytes and leaves
`totalRequests = 2`, `totalBytes = 2048`; the subsequent `read(512, 256)`
resolves to page 0 alone and issues 0 new requests, moving no further
bytes. -/
theorem c5_page_range_and_stats :
    (∀ srv h st offset length b st',
      Vfs.read srv h st offset length = .ok (b, st') →
      st'.stats.totalRequests = st.stats.totalRequests +
        ((Vfs.pageIndices h.pageSize offset length).filter
          (fun i => (Vfs.cacheGet st.cache i).isNone)).length) ∧
    Vfs.pageIndices 1024 0 2048 = [0, 1] ∧
    Vfs.pageIndices 1024 512 256 = [0] ∧
    Vfs.statsOf
        (Vfs.read Vfs.demoServer Vfs.demoHandle Vfs.freshState 0 2048) =
      some ⟨2, 2048⟩ ∧
    Vfs.afterFirstRead.cache.map Prod.fst = [1, 0] ∧
    Vfs.statsOf
        (Vfs.read Vfs.demoServer Vfs.demoHandle Vfs.afterFirstRead
          512 256) =
      some ⟨2, 2048⟩ := by
  refine ⟨?_, by decide, by decide, by decide, by decide, by decide⟩
  intro srv h st offset length b st' hr
  exact Vfs.read_requests srv h st offset length b st' hr

/-- C5 witness: instantiating the per-call accounting on a concrete
fresh-cache read of the small resource — two misses, two requests. -/
theorem c5_page_range_and_stats_witness :
    wAfter.stats.totalRequests =
      (⟨[], ⟨0, 0⟩⟩ : Vfs.VfsState).stats.totalRequests +
        ((Vfs.pageIndices wHandle.pageSize 0 6).filter
          (fun i =>
            (Vfs.cacheGet
              (⟨[], ⟨0, 0⟩⟩ : Vfs.VfsState).cache i).isNone)).length :=
  c5_page_range_and_stats.1 wServer wHandle ⟨[], ⟨0, 0⟩⟩ 0 6
    [10, 11, 12, 13, 14, 15] wAfter (by decide)

/-- C8: in the §5 concurrency model, any page cached in a reachable
state had its network fetch started exactly once — concurrent misses for
the same page collapse into a single fetch; in particular once two
concurrent reads have both completed (their pages are all cached), every
page they share was fetched exactly once, not twice. -/
theorem c8_shared_page_single_fetch (s : Dedup.DedupState)
    (hreach : Dedup.Reach s) :
    (∀ i, i ∈ s.cached → s.started.count i = 1) ∧
    (∀ r1 r2 : List Nat,
      (∀ i ∈ r1, i ∈ s.cached) → (∀ i ∈ r2, i ∈ s.cached) →
      ∀ i, i ∈ r1 → i ∈ r2 → s.started.count i = 1) := by
  have hinv := Dedup.reach_inv hreach
  have hcached : ∀ i, i ∈ s.cached → s.started.count i = 1 := by
    intro i hi
    have hc := hinv.2.2.2 i
    rw [if_pos (Or.inl hi)] at hc
    exact hc
  exact ⟨hcached, fun r1 r2 h1 h2 i hi1 hi2 => hcached i (h1 i hi1)⟩

/-- C8 witness: a concrete interleaving — one reader needs page 0, a
second needs pages 0 and 1, both complete — and the shared page 0 shows
exactly one started fetch. -/
theorem c8_shared_page_single_fetch_witness :
    (Dedup.DedupState.mk [1, 0] [] [1, 0]).started.count 0 = 1 := by
  have hreach : Dedup.Reach ⟨[1, 0], [], [1, 0]⟩ :=
    Dedup.Reach.step
      (Dedup.Reach.step
        (Dedup.Reach.step
          (Dedup.Reach.step Dedup.Reach.init
            (Dedup.Step.start _ 0 (by decide) (by decide)))
          (Dedup.Step.complete _ 0 (by decide)))
        (Dedup.Step.start _ 1 (by decide) (by decide)))
      (Dedup.Step.complete _ 1 (by decide))
  exact (c8_shared_page_single_fetch _ hreach).2 [0] [0, 1]
    (by decide) (by decide) 0 (by decide) (by decide)

/-- C3 counterexample: with the application's default form state the
config handed to `createDbWorker` also carries the user-collected
file-size field (`fileSize = 10261504`), so the forwarded user inputs
are not exactly the three named ones; clearing that field removes the
key, showing the config depends on this fourth user input. -/
theorem c3_exactly_three_counterexample :
    (App.queryDbConfig App.defaultAppState).fileSize =
      some (10261504 : ℚ) ∧
    (App.queryDbConfig
      { App.defaultAppState with dbFileSize := "" }).fileSize = none := by
  constructor
  · decide
  · decide

/-- C3 (amended): `queryDb` forwards the URL field as `config.url`, the
selected chunk size as `Number(pageSize)` in `config.requestChunkSize`
(with the constant `serverMode := "full"`), and the SQL editor text as
the query string; it additionally forwards the file-size field as
`config.fileSize` whenever `Number(dbFileSize) > 0`; and `runQuery`
publishes whatever result the library returns. -/
theorem c3_forwarded_inputs (s : App.AppState) :
    (App.queryDbConfig s).url = s.dbUrl ∧
    (App.queryDbConfig s).requestChunkSize = App.jsNumber s.pageSize ∧
    (App.queryDbConfig s).serverMode = "full" ∧
    App.queryDbQueryString s = s.sqlQuery ∧
    ((App.queryDbConfig s).fileSize = none ∨
      (App.queryDbConfig s).fileSize = App.jsNumber s.dbFileSize) ∧
    (∀ u rows bytes reqs tot t,
      (App.runQuery u
          (App.QueryOutcome.success rows bytes reqs tot t)).result =
        some rows) := by
  refine ⟨?_, ?_, ?_, rfl, ?_, fun u rows bytes reqs tot t => rfl⟩
  · simp only [App.queryDbConfig]
    cases App.jsNumber s.dbFileSize with
    | none => rfl
    | some q => by_cases h0 : 0 < q <;> simp [h0]
  · simp only [App.queryDbConfig]
    cases App.jsNumber s.dbFileSize with
    | none => rfl
    | some q => by_cases h0 : 0 < q <;> simp [h0]
  · simp only [App.queryDbConfig]
    cases App.jsNumber s.dbFileSize with
    | none => rfl
    | some q => by_cases h0 : 0 < q <;> simp [h0]
  · simp only [App.queryDbConfig]
    cases hq : App.jsNumber s.dbFileSize with
    | none => exact Or.inl rfl
    | some q =>
        by_cases h0 : 0 < q
        · right
          simp [h0]
        · left
          simp [h0]

/-- C9 counterexample: a rejection whose `message` is the empty string —
`runQuery` stores the fallback text `"An unknown error occurred"`, not
the rejection's message. -/
theorem c9_error_message_counterexample :
    (App.runQuery App.idleUi (App.QueryOutcome.failure (some ""))).error
      = true ∧
    (App.runQuery App.idleUi
        (App.QueryOutcome.failure (some ""))).errorMessage ≠ "" ∧
    (App.runQuery App.idleUi
        (App.QueryOutcome.failure (some ""))).errorMessage =
      "An unknown error occurred" := by
  refine ⟨rfl, ?_, rfl⟩
  decide

/-- C9 (amended): once the query settles, `querying` is `false`; on a
rejection, `error` is `true`, `result` and `jsonFile` are null — no
stale table or export blob survives a failure — and `errorMessage`
holds the rejection's message when that is a nonempty string, and the
fallback `"An unknown error occurred"` when it is empty or absent. -/
theorem c9_failure_resets_state (u : App.UiState)
    (out : App.QueryOutcome) :
    (App.runQuery u out).querying = false ∧
    (∀ m, out = App.QueryOutcome.failure m →
      (App.runQuery u out).error = true ∧
      (App.runQuery u out).result = none ∧
      (App.runQuery u out).jsonFile = none) ∧
    (∀ msg, out = App.QueryOutcome.failure (some msg) → msg ≠ "" →
      (App.runQuery u out).errorMessage = msg) ∧
    (∀ m, out = App.QueryOutcome.failure m → (m = some "" ∨ m = none) →
      (App.runQuery u out).errorMessage = "An unknown error occurred") := by
  refine ⟨?_, ?_, ?_, ?_⟩
  · cases out <;> rfl
  · intro m hm
    subst hm
    exact ⟨rfl, rfl, rfl⟩
  · intro msg hm hne
    subst hm
    simp only [App.runQuery]
    rw [if_neg hne]
  · intro m hm hcase
    subst hm
    rcases hcase with hc | hc <;> subst hc <;> rfl

/-- C9 witness: a rejection with the nonempty message `"boom"` leaves
exactly that text in `errorMessage`. -/
theorem c9_failure_resets_state_witness :
    (App.runQuery App.idleUi
        (App.QueryOutcome.failure (some "boom"))).errorMessage = "boom" :=
  (c9_failure_resets_state App.idleUi
      (App.QueryOutcome.failure (some "boom"))).2.2.1 "boom" rfl
    (by decide)

/-- C10: `queryDb` includes the `fileSize` key exactly when
`Number(dbFileSize) > 0`, in which case `config.fileSize` equals that
number; for an empty, zero, negative or non-numeric file-size input no
override is passed and size discovery is left to the library. -/
theorem c10_filesize_override_iff (s : App.AppState) :
    ((App.queryDbConfig s).fileSize ≠ none ↔
      (∃ q, App.jsNumber s.dbFileSize = some q ∧ 0 < q)) ∧
    (∀ q, App.jsNumber s.dbFileSize = some q → 0 < q →
      (App.queryDbConfig s).fileSize = some q) ∧
    (App.queryDbConfig { s with dbFileSize := "" }).fileSize = none ∧
    (App.queryDbConfig { s with dbFileSize := "0" }).fileSize = none ∧
    (App.queryDbConfig { s with dbFileSize := "-5" }).fileSize = none ∧
    (App.queryDbConfig { s with dbFileSize := "abc" }).fileSize = none := by
  have hposeq : ∀ q, App.jsNumber s.dbFileSize = some q → 0 < q →
      (App.queryDbConfig s).fileSize = some q := fun q hq h0 => by
    simp [App.queryDbConfig, hq, if_pos h0]
  have hnone : App.jsNumber s.dbFileSize = none →
      (App.queryDbConfig s).fileSize = none := fun hq => by
    simp [App.queryDbConfig, hq]
  have hnonpos : ∀ q, App.jsNumber s.dbFileSize = some q → ¬ 0 < q →
      (App.queryDbConfig s).fileSize = none := fun q hq h0 => by
    simp [App.queryDbConfig, hq, if_neg h0]
  refine ⟨⟨?_, ?_⟩, hposeq, rfl, rfl, rfl, rfl⟩
  · intro hne
    cases hq : App.jsNumber s.dbFileSize with
    | none => exact absurd (hnone hq) hne
    | some q =>
        by_cases h0 : 0 < q
        · exact ⟨q, hq ▸ rfl, h0⟩
        · exact absurd (hnonpos q hq h0) hne
  · rintro ⟨q, hq, h0⟩
    rw [hposeq q hq h0]
    simp

/-- C10 witness: at the default form state the override is included with
the default database's byte size. -/
theorem c10_filesize_override_iff_witness :
    (App.queryDbConfig App.defaultAppState).fileSize =
      some (10261504 : ℚ) :=
  (c10_filesize_override_iff App.defaultAppState).2.1 10261504
    (by decide) (by decide)
